import Mathlib

/-!
Shallow embedding of the avantusanalytics NFL odds backend:
`src/backend/scrapers/base_scraper.py` (odds-string parsing, implied
probability), `src/backend/services/odds_api_service.py` (fetch, cache,
transform) and `src/backend/app.py` (`_compare_bookmaker_odds`).

Python dicts are modelled as association lists with dict-style lookup and
last-write-wins assignment; Python float arithmetic is modelled by exact
rational arithmetic; wall-clock instants are integer seconds; network and
clock effects are passed in explicitly as arguments.
-/

namespace AvantusAnalytics

/-! ## Python dict model -/

/-- Python dict lookup `d.get(k)` / `k in d` on the association-list model of a
dict (keys are unique in any list built by `dictSet`). -/
def dictGet {κ α : Type} [BEq κ] (d : List (κ × α)) (k : κ) : Option α :=
  (d.find? (fun p => p.1 == k)).map (fun p => p.2)

/-- Python dict assignment `d[k] = v`: overwrite the value at an existing key in
place, else append the new binding. -/
def dictSet {κ α : Type} [BEq κ] (d : List (κ × α)) (k : κ) (v : α) :
    List (κ × α) :=
  if d.any (fun p => p.1 == k) then
    d.map (fun p => if p.1 == k then (k, v) else p)
  else
    d ++ [(k, v)]

/-! ## base_scraper.py : format_odds and calculate_implied_probability -/

/-- Whitespace stripped by Python `int(str)` before parsing (the embedding
covers the ASCII whitespace actually reachable from this repository's data). -/
def isPySpace (c : Char) : Bool :=
  c = ' ' ∨ c = '\t' ∨ c = '\n' ∨ c = '\r'

/-- Digit-run value: `some` of the decimal value when the character list is a
nonempty run of ASCII digits, else `none`. -/
def digitsToNat? (cs : List Char) : Option Nat :=
  if cs ≠ [] ∧ cs.all (fun c => c.isDigit) then
    some (cs.foldl (fun a c => a * 10 + (c.toNat - '0'.toNat)) 0)
  else none

/-- Model of Python builtin `int(str)`: strip surrounding whitespace, one
optional sign, then a nonempty run of ASCII digits; `none` models the
ValueError path. (Python additionally accepts underscore digit grouping and
non-ASCII digits, which no claim and no repository input exercises.) -/
def pyIntOfString (s : String) : Option Int :=
  let t := ((s.data.dropWhile isPySpace).reverse.dropWhile isPySpace).reverse
  match t with
  | '+' :: rest => (digitsToNat? rest).map (fun n => (n : Int))
  | '-' :: rest => (digitsToNat? rest).map (fun n => -(n : Int))
  | cs => (digitsToNat? cs).map (fun n => (n : Int))

/-- The three characters of the pattern literal in
`odds.replace('âˆ’', '-')`: the UTF-8 bytes of the Unicode minus sign U+2212
mis-decoded as cp1252, i.e. U+00E2, U+02C6, U+2019. -/
def mojibakeMinus : List Char :=
  [Char.ofNat 0xE2, Char.ofNat 0x2C6, Char.ofNat 0x2019]

/-- Python `str.replace` of the three-character mojibake minus sequence by one
ASCII '-': scan left to right, replacing non-overlapping occurrences. -/
def replaceMojibake : List Char → List Char
  | a :: b :: c :: rest =>
    if a = Char.ofNat 0xE2 ∧ b = Char.ofNat 0x2C6 ∧ c = Char.ofNat 0x2019 then
      '-' :: replaceMojibake rest
    else
      a :: replaceMojibake (b :: c :: rest)
  | cs => cs

/-- The normalization `odds.replace('+', '').replace('âˆ’', '-')` applied by
`format_odds` before `int()`: every '+' is removed (Python `replace` is global,
not anchored), then each mojibake minus sequence becomes '-'. -/
def normalizeOddsChars (s : String) : String :=
  String.mk (replaceMojibake (s.data.filter (fun c => c ≠ '+')))

/-- `BaseScraper.format_odds`: convert an odds string to an American odds
integer. `none` models a non-string argument (the AttributeError path); a
failed `int()` parse (ValueError) also yields the sentinel 0. -/
def format_odds (odds : Option String) : Int :=
  match odds with
  | none => 0
  | some s =>
    match pyIntOfString (normalizeOddsChars s) with
    | some n => n
    | none => 0

/-- `BaseScraper.calculate_implied_probability`: implied probability (as a
percentage) of an American odds price. Python float arithmetic is modelled by
exact rational arithmetic. -/
def calculate_implied_probability (american_odds : Int) : ℚ :=
  if american_odds < 0 then
    (|american_odds| : ℚ) / ((|american_odds| : ℚ) + 100) * 100
  else
    100 / ((american_odds : ℚ) + 100) * 100

/-! ## odds_api_service.py : raw payload, transform, cache, fetch -/

/-- One raw outcome object from The Odds API: each field may be absent. -/
structure RawOutcome where
  name : Option String
  price : Option Int
  point : Option ℚ
deriving DecidableEq

/-- One raw market object: `market.get('key')` and `market.get('outcomes', [])`. -/
structure RawMarket where
  key : Option String
  outcomes : List RawOutcome
deriving DecidableEq

/-- One raw bookmaker object. -/
structure RawBookmaker where
  key : Option String
  title : Option String
  last_update : Option String
  markets : List RawMarket
deriving DecidableEq

/-- One raw event object; a missing `bookmakers` key is the empty list
(`event.get('bookmakers', [])`). -/
structure RawEvent where
  id : Option String
  sport_key : Option String
  commence_time : Option String
  home_team : Option String
  away_team : Option String
  bookmakers : List RawBookmaker
deriving DecidableEq

/-- A parsed outcome entry `{'price': ..., 'point': ...}` as built by
`_parse_market`. -/
structure OutcomeEntry where
  price : Option Int
  point : Option ℚ
deriving DecidableEq

/-- `book_data` as built by `_transform_odds_data`: the markets dict is keyed by
`market.get('key')`, which Python stores as-is, so a missing key becomes the
dict key `None` — hence `Option String` keys. -/
structure Bookmaker where
  key : Option String
  title : Option String
  last_update : Option String
  markets : List (Option String × List (String × OutcomeEntry))
deriving DecidableEq

/-- A transformed game dict. -/
structure Game where
  id : Option String
  sport : Option String
  commence_time : Option String
  home_team : Option String
  away_team : Option String
  bookmakers : List Bookmaker
deriving DecidableEq

/-- `OddsAPIService._parse_market`: index a market's outcomes by outcome name.
`outcome['name']` is a mandatory subscript, so a missing name raises KeyError,
modelled as `Except.error`; the three recognized market keys share one body and
any other key yields the empty dict without touching the outcomes. -/
def parse_market (market : RawMarket) : Except Unit (List (String × OutcomeEntry)) :=
  match market.key with
  | some "h2h" | some "spreads" | some "totals" =>
    market.outcomes.foldlM (fun result outcome =>
      match outcome.name with
      | some nm =>
        Except.ok (dictSet result nm { price := outcome.price, point := outcome.point })
      | none => Except.error ()) []
  | _ => Except.ok []

/-- The markets dict of one transformed bookmaker. -/
abbrev MarketsDict := List (Option String × List (String × OutcomeEntry))

/-- One iteration of the market loop:
`book_data['markets'][market_key] = self._parse_market(market)`; a KeyError
from the parse propagates. -/
def market_step (mkts : MarketsDict) (market : RawMarket) :
    Except Unit MarketsDict :=
  match parse_market market with
  | Except.ok parsed => Except.ok (dictSet mkts market.key parsed)
  | Except.error e => Except.error e

/-- One iteration of the bookmaker loop: build `book_data` and append it to
`game['bookmakers']`; an exception from the market loop propagates. -/
def bookmaker_step (acc : List Bookmaker) (bookmaker : RawBookmaker) :
    Except Unit (List Bookmaker) :=
  match bookmaker.markets.foldlM market_step [] with
  | Except.ok markets =>
    Except.ok (acc ++ [{ key := bookmaker.key, title := bookmaker.title,
                         last_update := bookmaker.last_update,
                         markets := markets }])
  | Except.error e => Except.error e

/-- The body of `_transform_odds_data`'s per-event loop: build the game dict
from `event.get(...)` fields and the parsed bookmaker markets; any exception
inside (an outcome of a recognized market missing `name`) aborts this event
only, which the caller turns into a skip. -/
def transform_event (event : RawEvent) : Except Unit Game :=
  match event.bookmakers.foldlM bookmaker_step [] with
  | Except.ok bookmakers =>
    Except.ok { id := event.id, sport := event.sport_key,
                commence_time := event.commence_time,
                home_team := event.home_team, away_team := event.away_team,
                bookmakers := bookmakers }
  | Except.error e => Except.error e

/-- The `{games, count, timestamp}` payload returned by `_transform_odds_data`. -/
structure TransformResult where
  games : List Game
  count : Nat
  timestamp : String
deriving DecidableEq

/-- `OddsAPIService._transform_odds_data`: transform the raw batch; an event
whose transformation raises is logged and skipped (`continue`), the remaining
events are kept in input order. The `datetime.utcnow().isoformat()` reading is
passed in as `now`; the Python function's `markets` parameter is unused in its
body and is omitted. -/
def transform_odds_data (data : List RawEvent) (now : String) : TransformResult :=
  let games := data.foldl (fun games event =>
    match transform_event event with
    | Except.ok game => games ++ [game]
    | Except.error _ => games) []
  { games := games, count := games.length, timestamp := now }

/-- A response dict of `get_nfl_odds`: the success payload has `games`, `count`
and `timestamp` and no `error` key; the failure payloads have `error` plus an
empty `games` list and no `count`/`timestamp` keys. -/
structure ApiResult where
  error : Option String
  games : List Game
  count : Option Nat
  timestamp : Option String
deriving DecidableEq

/-- View a transform payload as a response dict. -/
def TransformResult.toApi (r : TransformResult) : ApiResult :=
  { error := none, games := r.games, count := some r.count,
    timestamp := some r.timestamp }

/-- `self.cache`: dict from cache key to `(data, timestamp)`. -/
abbrev Cache := List (String × (ApiResult × Int))

/-- `OddsAPIService._get_cached_data`: return the stored value while
`now - stored_at < cache_duration`; an expired or absent entry is a miss. -/
def get_cached_data (cache : Cache) (cache_duration : Int) (key : String)
    (now : Int) : Option ApiResult :=
  match dictGet cache key with
  | some (data, ts) => if now - ts < cache_duration then some data else none
  | none => none

/-- `OddsAPIService._set_cached_data`: unconditional overwrite with the current
instant. -/
def set_cached_data (cache : Cache) (key : String) (data : ApiResult)
    (now : Int) : Cache :=
  dictSet cache key (data, now)

/-- The cache key derived inside `get_nfl_odds`:
`f"nfl_odds_{','.join(markets)}"`. -/
def cache_key_for (markets : List String) : String :=
  "nfl_odds_" ++ String.intercalate "," markets

/-- The error payload `{'error': msg, 'games': []}`. -/
def errorResult (msg : String) : ApiResult :=
  { error := some msg, games := [], count := none, timestamp := none }

/-- `OddsAPIService.get_nfl_odds`. Network effects are shallow-embedded: the
outcome of `session.get` / `raise_for_status` / `json()` for this call is the
`fetch` argument (`ok` = the decoded raw event batch, `error` = the message of
the raised exception), clock readings are `now` (cache clock) and `fetchTime`
(the transform timestamp). Returns the response and the cache state after the
call. The `sportsbooks` filter only feeds the outbound request parameters; the
`regions` parameter likewise never influences the modelled state and is
omitted. `none` for `api_key` models a falsy `self.api_key`. -/
def get_nfl_odds (api_key : Option String) (markets? : Option (List String))
    (sportsbooks : Option (List String)) (cache : Cache) (cache_duration : Int)
    (now : Int) (fetch : Except String (List RawEvent)) (fetchTime : String) :
    ApiResult × Cache :=
  match api_key with
  | none => (errorResult "No API key configured", cache)
  | some _ =>
    let markets := markets?.getD ["h2h", "spreads", "totals"]
    let cacheKey := cache_key_for markets
    match get_cached_data cache cache_duration cacheKey now with
    | some cached => (cached, cache)
    | none =>
      match fetch with
      | Except.ok data =>
        let result := (transform_odds_data data fetchTime).toApi
        (result, set_cached_data cache cacheKey result now)
      | Except.error e => (errorResult e, cache)

/-! ## app.py : _compare_bookmaker_odds -/

/-- A best-odds slot `{'bookmaker': bookmaker['title'], 'price': price}`; the
title is `Option String` because it comes from `bookmaker.get('title')`. -/
structure BestEntry where
  bookmaker : Option String
  price : Int
deriving DecidableEq

/-- The `best_odds` sub-dict of a comparison, with one slot per market side. -/
structure BestOdds where
  moneyline_home : Option BestEntry
  moneyline_away : Option BestEntry
  spread_home : Option BestEntry
  spread_away : Option BestEntry
  total_over : Option BestEntry
  total_under : Option BestEntry
deriving DecidableEq

/-- The comparison dict returned by `_compare_bookmaker_odds` (its `game`
sub-dict flattened into the three identity fields). -/
structure Comparison where
  home_team : Option String
  away_team : Option String
  commence_time : Option String
  best_odds : BestOdds
deriving DecidableEq

/-- The guarded lookup `if team in h2h: price = h2h[team].get('price')`:
`some prices` when the team is a key of the h2h dict (a `None` team is never a
key, since parsed outcome names are strings), `none` when the side is absent. -/
def h2h_lookup (h2h : List (String × OutcomeEntry)) (team : Option String) :
    Option (Option Int) :=
  match team with
  | none => none
  | some t => (dictGet h2h t).map (fun e => e.price)

/-- The update `if price and (not best or price > best['price']): best = {...}`:
an absent or zero price is falsy and leaves the slot alone; otherwise the slot
is replaced when empty or strictly beaten. -/
def update_best (best : Option BestEntry) (title : Option String)
    (price : Option Int) : Option BestEntry :=
  match price, best with
  | none, b => b
  | some p, none => if p = 0 then none else some { bookmaker := title, price := p }
  | some p, some b =>
    if p = 0 then some b
    else if b.price < p then some { bookmaker := title, price := p } else some b

/-- One iteration of the bookmaker loop in `_compare_bookmaker_odds`: read the
bookmaker's h2h dict and update the home then the away moneyline slot. -/
def compare_step (home away : Option String)
    (acc : Option BestEntry × Option BestEntry) (bookmaker : Bookmaker) :
    Option BestEntry × Option BestEntry :=
  let h2h := (dictGet bookmaker.markets (some "h2h")).getD []
  let acc :=
    match h2h_lookup h2h home with
    | some price => (update_best acc.1 bookmaker.title price, acc.2)
    | none => acc
  match h2h_lookup h2h away with
  | some price => (acc.1, update_best acc.2 bookmaker.title price)
  | none => acc

/-- `app._compare_bookmaker_odds`: best odds per market side across the game's
bookmakers. Only the moneyline (h2h) loop exists in the source; the comment
"Similar logic for spreads and totals would go here..." marks the absent
spread/total logic, so those four slots keep their initial `None`. -/
def compare_bookmaker_odds (game : Game) : Comparison :=
  let best := game.bookmakers.foldl
    (compare_step game.home_team game.away_team) (none, none)
  { home_team := game.home_team, away_team := game.away_team,
    commence_time := game.commence_time,
    best_odds := { moneyline_home := best.1, moneyline_away := best.2,
                   spread_home := none, spread_away := none,
                   total_over := none, total_under := none } }

/-! ## Semantic helpers for stating the comparison claims -/

/-- The moneyline offer of one bookmaker for one side: `some (title, price)`
when the bookmaker's h2h dict has the team with a present, nonzero price (0 is
the provider's unset sentinel and American odds are never 0), else `none`. -/
def moneyline_offer (team : Option String) (bk : Bookmaker) :
    Option (Option String × Int) :=
  match h2h_lookup ((dictGet bk.markets (some "h2h")).getD []) team with
  | some (some p) => if p = 0 then none else some (bk.title, p)
  | _ => none

/-- All moneyline offers for one side, in bookmaker input order. -/
def moneyline_offers (team : Option String) (books : List Bookmaker) :
    List (Option String × Int) :=
  books.filterMap (moneyline_offer team)

/-- One side's slice of the bookmaker loop: update one slot from one bookmaker. -/
def side_step (team : Option String) (b : Option BestEntry) (bk : Bookmaker) :
    Option BestEntry :=
  match h2h_lookup ((dictGet bk.markets (some "h2h")).getD []) team with
  | some price => update_best b bk.title price
  | none => b

/-- Fold the slot update over an offers list. -/
def select_from (acc : Option BestEntry) (offers : List (Option String × Int)) :
    Option BestEntry :=
  offers.foldl (fun b tp => update_best b tp.1 (some tp.2)) acc

/-- The left-biased maximum of an offers list: the earliest entry whose price
no later entry strictly exceeds. -/
def first_max : List (Option String × Int) → Option BestEntry
  | [] => none
  | (t, p) :: rest =>
    match first_max rest with
    | none => some { bookmaker := t, price := p }
    | some c =>
      if p < c.price then some c else some { bookmaker := t, price := p }

/-- A market is well-named when every outcome carries a name; parsing a
recognized market raises KeyError exactly on an unnamed outcome. -/
abbrev market_named (m : RawMarket) : Prop := ∀ o ∈ m.outcomes, o.name ≠ none

/-- An event is well-named when every market of every bookmaker is well-named;
such an event can never be skipped by the transform. -/
abbrev event_named (ev : RawEvent) : Prop :=
  ∀ bk ∈ ev.bookmakers, ∀ m ∈ bk.markets, market_named m

/-- Modelled from the claim's words, not from the source: parse an odds string
after stripping only a LEADING '+' (where the source removes every '+') and
normalizing the mojibake minus sequence. Used to compare the claimed behavior
with `format_odds`. -/
def claimLeadingPlusParse (s : String) : Option Int :=
  let stripped := match s.data with
    | '+' :: rest => String.mk rest
    | _ => s
  pyIntOfString (String.mk (replaceMojibake stripped.data))

/-! ## Concrete fixtures -/

/-- A raw event missing its `home_team` field. -/
def evMissingHome : RawEvent :=
  { id := some "ev1", sport_key := some "americanfootball_nfl",
    commence_time := some "t0", home_team := none, away_team := some "Bills",
    bookmakers := [] }

/-- A raw event whose h2h market has an outcome without a `name`: transforming
it raises KeyError and the event is skipped. -/
def evBadOutcome : RawEvent :=
  { id := some "ev2", sport_key := some "americanfootball_nfl",
    commence_time := some "t0", home_team := some "Chiefs",
    away_team := some "Bills",
    bookmakers := [{ key := some "dk", title := some "DraftKings",
                     last_update := none,
                     markets := [{ key := some "h2h",
                                   outcomes := [{ name := none,
                                                  price := some 100,
                                                  point := none }] }] }] }

/-- A transformed bookmaker quoting one moneyline price for one team. -/
def mkBook (title : String) (team : String) (p : Int) : Bookmaker :=
  { key := some title, title := some title, last_update := none,
    markets := [(some "h2h", [(team, { price := some p, point := none })])] }

/-- The spec's comparison fixture: home moneyline prices -110, +150, -120. -/
def g0 : Game :=
  { id := some "g0", sport := none, commence_time := some "t0",
    home_team := some "Chiefs", away_team := some "Bills",
    bookmakers := [mkBook "BookA" "Chiefs" (-110), mkBook "BookB" "Chiefs" 150,
                   mkBook "BookC" "Chiefs" (-120)] }

/-- A game where two bookmakers tie at the best home moneyline price. -/
def gTie : Game :=
  { id := some "g1", sport := none, commence_time := some "t0",
    home_team := some "Chiefs", away_team := some "Bills",
    bookmakers := [mkBook "BookA" "Chiefs" 150, mkBook "BookB" "Chiefs" 150] }

/-- A transformed bookmaker carrying spread and total quotes for a game. -/
def bkSpread : Bookmaker :=
  { key := some "dk", title := some "DraftKings", last_update := none,
    markets := [(some "spreads",
                  [("Chiefs", { price := some (-110), point := some (-3) }),
                   ("Bills", { price := some (-110), point := some 3 })]),
                (some "totals",
                  [("Over", { price := some (-105), point := some 47 }),
                   ("Under", { price := some (-115), point := some 47 })])] }

/-- A game whose only bookmaker offers spread and total prices (no h2h). -/
def gSpread : Game :=
  { id := some "g2", sport := none, commence_time := some "t0",
    home_team := some "Chiefs", away_team := some "Bills",
    bookmakers := [bkSpread] }

/-! ## Transform lemmas -/

theorem transform_games_eq (data : List RawEvent) (now : String) :
    (transform_odds_data data now).games
      = data.filterMap (fun e => (transform_event e).toOption) := by
  suffices h : ∀ (l : List RawEvent) (acc : List Game),
      l.foldl (fun games event =>
        match transform_event event with
        | Except.ok game => games ++ [game]
        | Except.error _ => games) acc
        = acc ++ l.filterMap (fun e => (transform_event e).toOption) by
    simpa [transform_odds_data] using h data []
  intro l
  induction l with
  | nil => intro acc; simp
  | cons e rest ih =>
    intro acc
    rw [List.foldl_cons, List.filterMap_cons]
    cases he : transform_event e with
    | ok g => simp only [he, Except.toOption, ih, List.append_assoc,
        List.singleton_append]
    | error u => simp only [he, Except.toOption, ih]

theorem parse_market_ok_of_named (m : RawMarket) (h : market_named m) :
    ∃ r, parse_market m = Except.ok r := by
  have key : ∀ (outs : List RawOutcome), (∀ o ∈ outs, o.name ≠ none) →
      ∀ (acc : List (String × OutcomeEntry)),
      ∃ r, outs.foldlM (fun result outcome =>
        match outcome.name with
        | some nm => Except.ok
            (dictSet result nm { price := outcome.price, point := outcome.point })
        | none => (Except.error () : Except Unit (List (String × OutcomeEntry))))
        acc = Except.ok r := by
    intro outs houts
    induction outs with
    | nil => intro acc; exact ⟨acc, rfl⟩
    | cons o rest ih =>
      intro acc
      have hname := houts o (List.mem_cons_self _ _)
      cases hn : o.name with
      | none => exact absurd hn hname
      | some nm =>
        have ih' := ih (fun x hx => houts x (List.mem_cons_of_mem _ hx))
        obtain ⟨r, hr⟩ := ih'
          (dictSet acc nm { price := o.price, point := o.point })
        refine ⟨r, ?_⟩
        rw [List.foldlM_cons, hn]
        simpa using hr
  unfold parse_market
  split
  · exact key m.outcomes h []
  · exact key m.outcomes h []
  · exact key m.outcomes h []
  · exact ⟨[], rfl⟩

theorem transform_event_home_away (ev : RawEvent) (g : Game)
    (h : transform_event ev = Except.ok g) :
    g.home_team = ev.home_team ∧ g.away_team = ev.away_team := by
  unfold transform_event at h
  cases hfold : ev.bookmakers.foldlM bookmaker_step [] with
  | ok l =>
    rw [hfold] at h
    cases h
    exact ⟨rfl, rfl⟩
  | error u =>
    rw [hfold] at h
    cases h

theorem transform_event_ok_of_named (ev : RawEvent) (h : event_named ev) :
    ∃ g, transform_event ev = Except.ok g ∧ g.home_team = ev.home_team
      ∧ g.away_team = ev.away_team := by
  have books : ∀ (bks : List RawBookmaker),
      (∀ bk ∈ bks, ∀ m ∈ bk.markets, market_named m) →
      ∀ (acc : List Bookmaker), ∃ l, bks.foldlM bookmaker_step acc = Except.ok l := by
    intro bks hbks
    induction bks with
    | nil => intro acc; exact ⟨acc, rfl⟩
    | cons bk rest ih =>
      intro acc
      have mkts : ∀ (ms : List RawMarket), (∀ m ∈ ms, market_named m) →
          ∀ (macc : MarketsDict), ∃ r, ms.foldlM market_step macc = Except.ok r := by
        intro ms hms
        induction ms with
        | nil => intro macc; exact ⟨macc, rfl⟩
        | cons m mrest mih =>
          intro macc
          obtain ⟨pm, hpm⟩ := parse_market_ok_of_named m (hms m (List.mem_cons_self _ _))
          obtain ⟨r, hr⟩ := mih (fun x hx => hms x (List.mem_cons_of_mem _ hx))
            (dictSet macc m.key pm)
          refine ⟨r, ?_⟩
          rw [List.foldlM_cons]
          simp only [market_step, hpm]
          simpa using hr
      obtain ⟨ml, hml⟩ := mkts bk.markets (hbks bk (List.mem_cons_self _ _)) []
      obtain ⟨l, hl⟩ := ih (fun x hx => hbks x (List.mem_cons_of_mem _ hx))
        (acc ++ [{ key := bk.key, title := bk.title, last_update := bk.last_update,
                   markets := ml }])
      refine ⟨l, ?_⟩
      rw [List.foldlM_cons]
      simp only [bookmaker_step, hml]
      simpa using hl
  obtain ⟨l, hl⟩ := books ev.bookmakers h []
  refine ⟨{ id := ev.id, sport := ev.sport_key, commence_time := ev.commence_time,
            home_team := ev.home_team, away_team := ev.away_team,
            bookmakers := l }, ?_, rfl, rfl⟩
  unfold transform_event
  rw [hl]

/-! ## Comparison lemmas -/

theorem compare_step_pair (home away : Option String)
    (acc : Option BestEntry × Option BestEntry) (bk : Bookmaker) :
    compare_step home away acc bk
      = (side_step home acc.1 bk, side_step away acc.2 bk) := by
  unfold compare_step side_step
  cases hh : h2h_lookup ((dictGet bk.markets (some "h2h")).getD []) home <;>
    cases ha : h2h_lookup ((dictGet bk.markets (some "h2h")).getD []) away <;>
    simp [hh, ha]

theorem foldl_compare_step (home away : Option String) (books : List Bookmaker)
    (accH accA : Option BestEntry) :
    books.foldl (compare_step home away) (accH, accA)
      = (books.foldl (side_step home) accH, books.foldl (side_step away) accA) := by
  induction books generalizing accH accA with
  | nil => rfl
  | cons bk rest ih =>
    rw [List.foldl_cons, List.foldl_cons, List.foldl_cons, compare_step_pair]
    exact ih _ _

theorem side_step_eq (team : Option String) (b : Option BestEntry) (bk : Bookmaker) :
    side_step team b bk
      = match moneyline_offer team bk with
        | some tp => update_best b tp.1 (some tp.2)
        | none => b := by
  unfold side_step moneyline_offer
  cases hh : h2h_lookup ((dictGet bk.markets (some "h2h")).getD []) team with
  | none => rfl
  | some pr =>
    cases pr with
    | none => cases b <;> simp [update_best]
    | some p =>
      by_cases hp : p = 0
      · subst hp; cases b <;> simp [update_best]
      · simp [hp, update_best]

theorem foldl_side_offers (team : Option String) (books : List Bookmaker)
    (acc : Option BestEntry) :
    books.foldl (side_step team) acc
      = select_from acc (moneyline_offers team books) := by
  induction books generalizing acc with
  | nil => rfl
  | cons bk rest ih =>
    rw [List.foldl_cons, side_step_eq]
    simp only [moneyline_offers, List.filterMap_cons]
    cases ho : moneyline_offer team bk with
    | none => exact ih _
    | some tp =>
      simp only [select_from, List.foldl_cons]
      exact ih _

theorem moneyline_offers_ne_zero (team : Option String) (books : List Bookmaker) :
    ∀ tp ∈ moneyline_offers team books, tp.2 ≠ 0 := by
  intro tp htp
  simp only [moneyline_offers, List.mem_filterMap] at htp
  obtain ⟨bk, _, hbk⟩ := htp
  unfold moneyline_offer at hbk
  split at hbk
  · next p =>
    split at hbk
    · cases hbk
    · next h0 =>
      cases hbk
      exact h0
  · cases hbk

theorem select_from_some (offers : List (Option String × Int))
    (hz : ∀ tp ∈ offers, tp.2 ≠ 0) (b : BestEntry) :
    select_from (some b) offers
      = match first_max offers with
        | none => some b
        | some c => if b.price < c.price then some c else some b := by
  induction offers generalizing b with
  | nil => rfl
  | cons tp rest ih =>
    obtain ⟨t, p⟩ := tp
    have hp : p ≠ 0 := hz (t, p) (List.mem_cons_self _ _)
    have hz' : ∀ x ∈ rest, x.2 ≠ 0 := fun x hx => hz x (List.mem_cons_of_mem _ hx)
    have hstep : update_best (some b) t (some p)
        = if b.price < p then some { bookmaker := t, price := p } else some b := by
      simp [update_best, hp]
    simp only [select_from, List.foldl_cons] at ih ⊢
    rw [hstep]
    by_cases hbp : b.price < p
    · rw [if_pos hbp, ih hz']
      cases hfm : first_max rest with
      | none =>
        simp only [first_max, hfm]
        rw [if_pos hbp]
      | some c =>
        by_cases hpc : p < c.price
        · simp only [first_max, hfm, if_pos hpc]
          rw [if_pos (show b.price < c.price by omega)]
        · simp only [first_max, hfm, if_neg hpc]
          rw [if_pos hbp]
    · rw [if_neg hbp, ih hz']
      cases hfm : first_max rest with
      | none =>
        simp only [first_max, hfm]
        rw [if_neg hbp]
      | some c =>
        by_cases hpc : p < c.price
        · simp only [first_max, hfm, if_pos hpc]
        · simp only [first_max, hfm, if_neg hpc]
          rw [if_neg (by omega : ¬ b.price < c.price), if_neg hbp]

theorem select_from_none (offers : List (Option String × Int))
    (hz : ∀ tp ∈ offers, tp.2 ≠ 0) :
    select_from none offers = first_max offers := by
  cases offers with
  | nil => rfl
  | cons tp rest =>
    obtain ⟨t, p⟩ := tp
    have hp : p ≠ 0 := hz (t, p) (List.mem_cons_self _ _)
    have hz' : ∀ x ∈ rest, x.2 ≠ 0 := fun x hx => hz x (List.mem_cons_of_mem _ hx)
    have hstep : update_best none t (some p)
        = some { bookmaker := t, price := p } := by simp [update_best, hp]
    simp only [select_from, List.foldl_cons]
    rw [hstep]
    have := select_from_some rest hz' { bookmaker := t, price := p }
    simp only [select_from] at this
    rw [this]
    cases hfm : first_max rest with
    | none => simp [first_max, hfm]
    | some c => simp only [first_max, hfm]

theorem first_max_none_iff (offers : List (Option String × Int)) :
    first_max offers = none ↔ offers = [] := by
  cases offers with
  | nil => simp [first_max]
  | cons tp rest =>
    obtain ⟨t, p⟩ := tp
    constructor
    · intro h
      exfalso
      cases hfm : first_max rest with
      | none => simp [first_max, hfm] at h
      | some c =>
        by_cases hpc : p < c.price
        · simp [first_max, hfm, if_pos hpc] at h
        · simp [first_max, hfm, if_neg hpc] at h
    · intro h; simp at h

theorem first_max_spec (offers : List (Option String × Int)) (e : BestEntry)
    (h : first_max offers = some e) :
    ∃ k, offers.get? k = some (e.bookmaker, e.price) ∧
      (∀ l, l < k → ∀ tp, offers.get? l = some tp → tp.2 < e.price) ∧
      (∀ tp ∈ offers, tp.2 ≤ e.price) := by
  induction offers generalizing e with
  | nil => cases h
  | cons tp rest ih =>
    obtain ⟨t, p⟩ := tp
    cases hfm : first_max rest with
    | none =>
      have hrest : rest = [] := (first_max_none_iff rest).mp hfm
      have he : e = { bookmaker := t, price := p } := by
        simp only [first_max, hfm] at h
        exact (Option.some.injEq _ _).mp h.symm
      subst he
      subst hrest
      refine ⟨0, rfl, ?_, ?_⟩
      · intro l hl
        exact absurd hl (Nat.not_lt_zero l)
      · intro tp' htp'
        rcases List.mem_cons.mp htp' with h1 | h2
        · rw [h1]
        · cases h2
    | some c =>
      by_cases hpc : p < c.price
      · have he : e = c := by
          simp only [first_max, hfm, if_pos hpc] at h
          exact (Option.some.injEq _ _).mp h.symm
        subst he
        obtain ⟨k, hk, hbefore, hbound⟩ := ih e hfm
        refine ⟨k + 1, by simpa using hk, ?_, ?_⟩
        · intro l hl tp' htp'
          cases l with
          | zero =>
            simp only [List.get?_cons_zero, Option.some.injEq] at htp'
            rw [← htp']
            exact hpc
          | succ l' =>
            exact hbefore l' (by omega) tp' (by simpa using htp')
        · intro tp' htp'
          rcases List.mem_cons.mp htp' with h1 | h2
          · rw [h1]; exact le_of_lt hpc
          · exact hbound tp' h2
      · have he : e = { bookmaker := t, price := p } := by
          simp only [first_max, hfm, if_neg hpc] at h
          exact (Option.some.injEq _ _).mp h.symm
        subst he
        obtain ⟨k, hk, hbefore, hbound⟩ := ih c hfm
        refine ⟨0, rfl, ?_, ?_⟩
        · intro l hl
          exact absurd hl (Nat.not_lt_zero l)
        · intro tp' htp'
          rcases List.mem_cons.mp htp' with h1 | h2
          · rw [h1]
          · have hcp : c.price ≤ p := by omega
            exact le_trans (hbound tp' h2) hcp

theorem compare_moneyline_home_eq (g : Game) :
    (compare_bookmaker_odds g).best_odds.moneyline_home
      = first_max (moneyline_offers g.home_team g.bookmakers) := by
  show (g.bookmakers.foldl (compare_step g.home_team g.away_team) (none, none)).1 = _
  rw [foldl_compare_step, foldl_side_offers]
  exact select_from_none _ (moneyline_offers_ne_zero _ _)

theorem compare_moneyline_away_eq (g : Game) :
    (compare_bookmaker_odds g).best_odds.moneyline_away
      = first_max (moneyline_offers g.away_team g.bookmakers) := by
  show (g.bookmakers.foldl (compare_step g.home_team g.away_team) (none, none)).2 = _
  rw [foldl_compare_step]
  show g.bookmakers.foldl (side_step g.away_team) none = _
  rw [foldl_side_offers]
  exact select_from_none _ (moneyline_offers_ne_zero _ _)

/-! ## Claim theorems -/

/-- C1: for every Game and each moneyline side, `_compare_bookmaker_odds`
selects the offer with the maximum price under ordinary signed-integer
comparison, returning that bookmaker's title and price; when no bookmaker
offers the side (a present, nonzero price — 0 being the unset sentinel), and in
particular for a Game with zero bookmakers, the slot is `None` rather than an
error. -/
theorem C1_moneyline_best_selection (g : Game) :
    ((compare_bookmaker_odds g).best_odds.moneyline_home = none
        ↔ moneyline_offers g.home_team g.bookmakers = []) ∧
    (∀ e, (compare_bookmaker_odds g).best_odds.moneyline_home = some e →
        (e.bookmaker, e.price) ∈ moneyline_offers g.home_team g.bookmakers ∧
        ∀ tp ∈ moneyline_offers g.home_team g.bookmakers, tp.2 ≤ e.price) ∧
    ((compare_bookmaker_odds g).best_odds.moneyline_away = none
        ↔ moneyline_offers g.away_team g.bookmakers = []) ∧
    (∀ e, (compare_bookmaker_odds g).best_odds.moneyline_away = some e →
        (e.bookmaker, e.price) ∈ moneyline_offers g.away_team g.bookmakers ∧
        ∀ tp ∈ moneyline_offers g.away_team g.bookmakers, tp.2 ≤ e.price) ∧
    (g.bookmakers = [] →
        (compare_bookmaker_odds g).best_odds.moneyline_home = none ∧
        (compare_bookmaker_odds g).best_odds.moneyline_away = none) := by
  refine ⟨?_, ?_, ?_, ?_, ?_⟩
  · rw [compare_moneyline_home_eq, first_max_none_iff]
  · intro e he
    rw [compare_moneyline_home_eq] at he
    obtain ⟨k, hk, _, hbound⟩ := first_max_spec _ e he
    exact ⟨List.get?_mem hk, hbound⟩
  · rw [compare_moneyline_away_eq, first_max_none_iff]
  · intro e he
    rw [compare_moneyline_away_eq] at he
    obtain ⟨k, hk, _, hbound⟩ := first_max_spec _ e he
    exact ⟨List.get?_mem hk, hbound⟩
  · intro hempty
    rw [compare_moneyline_home_eq, compare_moneyline_away_eq, hempty]
    exact ⟨rfl, rfl⟩

/-- Witness for C1 on the spec's fixture: home prices [-110, +150, -120] across
BookA, BookB, BookC; the selected best entry (BookB, +150) is an actual offer
and beats every offered price. -/
theorem C1_moneyline_best_selection_witness :
    (some "BookB", (150 : Int)) ∈ moneyline_offers g0.home_team g0.bookmakers ∧
    ∀ tp ∈ moneyline_offers g0.home_team g0.bookmakers, tp.2 ≤ 150 :=
  (C1_moneyline_best_selection g0).2.1
    { bookmaker := some "BookB", price := 150 } (by decide)

/-- C6: when two bookmakers offer the identical maximum moneyline price, the
engine keeps the one appearing first in the input sequence: the selected entry
sits at an offer index `k ≤ i < j` and every offer before `k` has a strictly
smaller price. Determinism is inherent: `compare_bookmaker_odds` is a pure
function of the Game value. -/
theorem C6_tie_first_bookmaker_wins (g : Game) (i j : Nat)
    (ti tj : Option String) (p : Int) (hij : i < j)
    (hi : (moneyline_offers g.home_team g.bookmakers).get? i = some (ti, p))
    (hj : (moneyline_offers g.home_team g.bookmakers).get? j = some (tj, p))
    (hmax : ∀ tp ∈ moneyline_offers g.home_team g.bookmakers, tp.2 ≤ p) :
    ∃ e k, (compare_bookmaker_odds g).best_odds.moneyline_home = some e ∧
      e.price = p ∧ k ≤ i ∧
      (moneyline_offers g.home_team g.bookmakers).get? k = some (e.bookmaker, p) ∧
      ∀ l, l < k → ∀ tp,
        (moneyline_offers g.home_team g.bookmakers).get? l = some tp → tp.2 < p := by
  cases hfm : first_max (moneyline_offers g.home_team g.bookmakers) with
  | none =>
    rw [first_max_none_iff] at hfm
    rw [hfm] at hi
    cases hi
  | some e =>
    obtain ⟨k, hk, hbefore, hbound⟩ := first_max_spec _ e hfm
    have hep : e.price = p := by
      have h1 : p ≤ e.price := hbound (ti, p) (List.get?_mem hi)
      have h2 : e.price ≤ p := hmax (e.bookmaker, e.price) (List.get?_mem hk)
      omega
    have hki : k ≤ i := by
      by_contra hgt
      have := hbefore i (by omega) (ti, p) hi
      omega
    refine ⟨e, k, ?_, hep, hki, ?_, ?_⟩
    · rw [compare_moneyline_home_eq, hfm]
    · rw [← hep]; exact hk
    · intro l hl tp htp
      rw [← hep]
      exact hbefore l hl tp htp

/-- Witness for C6: BookA and BookB both quote +150 for the home side; the
engine deterministically keeps BookA, the first of the tie. -/
theorem C6_tie_first_bookmaker_wins_witness :
    ∃ e k, (compare_bookmaker_odds gTie).best_odds.moneyline_home = some e ∧
      e.price = 150 ∧ k ≤ 0 ∧
      (moneyline_offers gTie.home_team gTie.bookmakers).get? k
        = some (e.bookmaker, 150) ∧
      ∀ l, l < k → ∀ tp,
        (moneyline_offers gTie.home_team gTie.bookmakers).get? l = some tp →
          tp.2 < 150 :=
  C6_tie_first_bookmaker_wins gTie 0 1 (some "BookA") (some "BookB") 150
    (by omega) (by decide) (by decide) (by decide)

/-- C2 (code gap): the source's comparison loop only implements the moneyline
market — the spread and total slots of every comparison are `None`
unconditionally, even when a bookmaker (here `bkSpread` inside `gSpread`)
offers spread and total prices. The spec states best-price selection for all
three markets as the intended behavior; the code's own comment "Similar logic
for spreads and totals would go here..." marks the gap. -/
theorem C2_spread_total_slots_always_none :
    (∀ g : Game,
        (compare_bookmaker_odds g).best_odds.spread_home = none ∧
        (compare_bookmaker_odds g).best_odds.spread_away = none ∧
        (compare_bookmaker_odds g).best_odds.total_over = none ∧
        (compare_bookmaker_odds g).best_odds.total_under = none) ∧
    bkSpread ∈ gSpread.bookmakers ∧
    (∃ entry : OutcomeEntry,
        dictGet ((dictGet bkSpread.markets (some "spreads")).getD []) "Chiefs"
          = some entry ∧ entry.price = some (-110)) ∧
    (∃ entry : OutcomeEntry,
        dictGet ((dictGet bkSpread.markets (some "totals")).getD []) "Over"
          = some entry ∧ entry.price = some (-105)) ∧
    (compare_bookmaker_odds gSpread).best_odds.spread_home = none ∧
    (compare_bookmaker_odds gSpread).best_odds.total_over = none := by
  refine ⟨fun g => ⟨rfl, rfl, rfl, rfl⟩, by decide,
    ⟨{ price := some (-110), point := some (-3) }, by decide, rfl⟩,
    ⟨{ price := some (-105), point := some 47 }, by decide, rfl⟩, rfl, rfl⟩

/-- C3 counterexample: a raw event missing `home_team` is NOT skipped by
`_transform_odds_data` — `event.get('home_team')` simply yields `None` and the
event is transformed and returned (here as the batch's single game, with a
null home team), contradicting the claim that it does not appear in the
returned game list. -/
theorem C3_missing_team_not_skipped :
    evMissingHome.home_team = none ∧
    (transform_odds_data [evMissingHome] "now").games.length = 1 ∧
    (transform_odds_data [evMissingHome] "now").games.map Game.home_team
      = [none] := by
  refine ⟨rfl, by decide, by decide⟩

/-- C3 amended: the transform is per-event and not fatal to the batch: an event
whose transformation succeeds is returned in place (with `home_team` and
`away_team` copied verbatim, `None` included — missing team fields do not cause
a skip), an event whose transformation raises (an unnamed outcome in a
recognized market) is dropped while the surrounding events are still processed,
and an event all of whose market outcomes are named always transforms. -/
theorem C3_transform_locality (now : String) (pre post : List RawEvent)
    (ev : RawEvent) :
    (∀ g, transform_event ev = Except.ok g →
        (transform_odds_data (pre ++ ev :: post) now).games
          = (transform_odds_data pre now).games ++ g ::
            (transform_odds_data post now).games
        ∧ g.home_team = ev.home_team ∧ g.away_team = ev.away_team) ∧
    (transform_event ev = Except.error () →
        (transform_odds_data (pre ++ ev :: post) now).games
          = (transform_odds_data pre now).games
            ++ (transform_odds_data post now).games) ∧
    (event_named ev → ∃ g, transform_event ev = Except.ok g
        ∧ g.home_team = ev.home_team) := by
  refine ⟨?_, ?_, ?_⟩
  · intro g hg
    refine ⟨?_, (transform_event_home_away ev g hg).1,
      (transform_event_home_away ev g hg).2⟩
    simp [transform_games_eq, hg, Except.toOption]
  · intro hg
    simp [transform_games_eq, hg, Except.toOption]
  · intro hn
    obtain ⟨g, hg, hh, _⟩ := transform_event_ok_of_named ev hn
    exact ⟨g, hg, hh⟩

/-- Witness for C3: the event missing `home_team` transforms successfully and is
kept in place between two neighbors, and the event with an unnamed h2h outcome
is skipped without disturbing the rest of the batch. -/
theorem C3_transform_locality_witness :
    ((transform_odds_data [evMissingHome, evBadOutcome] "now").games
        = (transform_odds_data [evMissingHome] "now").games
          ++ (transform_odds_data ([] : List RawEvent) "now").games
      ∧ (∃ g, transform_event evMissingHome = Except.ok g
          ∧ g.home_team = evMissingHome.home_team)) := by
  refine ⟨?_, (C3_transform_locality "now" [] [] evMissingHome).2.2 (by decide)⟩
  have h := (C3_transform_locality "now" [evMissingHome] [] evBadOutcome).2.1
    (by rfl)
  simpa using h

/-- C10: every transformed response satisfies `count == len(games)`, however
many raw events were skipped; in the source the `count` field is computed as
`len(games)` of the very list returned. -/
theorem C10_count_eq_games_length (data : List RawEvent) (now : String) :
    (transform_odds_data data now).count
      = (transform_odds_data data now).games.length := rfl

/-- C4 counterexample: the derived cache key is the comma-join of the market
list in the order given — `["h2h","spreads"]` and `["spreads","h2h"]` are
permutations of each other yet derive different keys, refuting the claimed
permutation invariance. -/
theorem C4_market_order_changes_key :
    cache_key_for ["h2h", "spreads"] ≠ cache_key_for ["spreads", "h2h"] := by
  decide

/-- C4 amended: the cache key is `"nfl_odds_" + ",".join(markets)` — it depends
only on the joined market string in the order given (so permutations yield
different keys), and the bookmaker filter does not enter the key at all: the
whole behavior of `get_nfl_odds`, its cache interaction included, is identical
for any two bookmaker filters. -/
theorem C4_key_ignores_bookmaker_filter :
    (∀ (api_key : Option String) (markets? : Option (List String))
        (s₁ s₂ : Option (List String)) (cache : Cache) (cd now : Int)
        (fetch : Except String (List RawEvent)) (fetchTime : String),
        get_nfl_odds api_key markets? s₁ cache cd now fetch fetchTime
          = get_nfl_odds api_key markets? s₂ cache cd now fetch fetchTime) ∧
    (∀ m₁ m₂ : List String, String.intercalate "," m₁ = String.intercalate "," m₂ →
        cache_key_for m₁ = cache_key_for m₂) ∧
    cache_key_for ["h2h", "spreads"] ≠ cache_key_for ["spreads", "h2h"] := by
  refine ⟨fun _ _ _ _ _ _ _ _ _ => rfl, ?_, by decide⟩
  intro m₁ m₂ h
  unfold cache_key_for
  rw [h]

/-- Witness for C4: two calls differing only in their bookmaker filter behave
identically, and two market lists with the same comma-join share a key. -/
theorem C4_key_ignores_bookmaker_filter_witness :
    get_nfl_odds (some "k") (some ["h2h"]) (some ["fanduel"]) [] 300 0
        (Except.error "boom") "t"
      = get_nfl_odds (some "k") (some ["h2h"]) (some ["draftkings"]) [] 300 0
        (Except.error "boom") "t"
    ∧ cache_key_for ["h2h,spreads"] = cache_key_for ["h2h", "spreads"] :=
  ⟨C4_key_ignores_bookmaker_filter.1 (some "k") (some ["h2h"]) (some ["fanduel"])
      (some ["draftkings"]) [] 300 0 (Except.error "boom") "t",
    C4_key_ignores_bookmaker_filter.2.1 ["h2h,spreads"] ["h2h", "spreads"]
      (by decide)⟩

/-- C5 counterexample: at the boundary p = -100 the conversion yields exactly
50, so the claim's assertion that every p ≤ -100 lands in the OPEN interval
(50, 100) fails at p = -100 (which the claim simultaneously pins to exactly
50). -/
theorem C5_boundary_breaks_open_interval :
    calculate_implied_probability (-100) = 50 ∧
    ¬(50 < calculate_implied_probability (-100)
        ∧ calculate_implied_probability (-100) < 100) := by
  have h : calculate_implied_probability (-100) = 50 := by
    norm_num [calculate_implied_probability]
  exact ⟨h, fun hc => absurd (h ▸ hc.1) (lt_irrefl 50)⟩

/-- C5 amended: with the boundaries excluded from the open intervals, the
ranges hold: p < -100 gives a probability in (50, 100), p > 100 gives one in
(0, 50), the boundaries -100 and +100 give exactly 50, and the conversion is
the stated pure function (|p|/(|p|+100) scaled for p < 0, 100/(p+100) scaled
for p ≥ 0). -/
theorem C5_implied_probability_ranges (p : ℤ) :
    (p < -100 → 50 < calculate_implied_probability p
        ∧ calculate_implied_probability p < 100) ∧
    (100 < p → 0 < calculate_implied_probability p
        ∧ calculate_implied_probability p < 50) ∧
    (p = -100 → calculate_implied_probability p = 50) ∧
    (p = 100 → calculate_implied_probability p = 50) ∧
    (p < 0 → calculate_implied_probability p
        = (|p| : ℚ) / ((|p| : ℚ) + 100) * 100) ∧
    (0 ≤ p → calculate_implied_probability p
        = 100 / ((p : ℚ) + 100) * 100) := by
  refine ⟨?_, ?_, ?_, ?_, ?_, ?_⟩
  · intro hp
    have hneg : p < 0 := by omega
    have ha : (100 : ℚ) < (|p| : ℚ) := by
      have : (100 : ℤ) < |p| := by
        rw [abs_of_neg hneg]; omega
      exact_mod_cast this
    have hpos : (0 : ℚ) < (|p| : ℚ) + 100 := by linarith
    rw [calculate_implied_probability, if_pos hneg]
    constructor
    · rw [div_mul_eq_mul_div, lt_div_iff₀ hpos]
      nlinarith
    · rw [div_mul_eq_mul_div, div_lt_iff₀ hpos]
      nlinarith
  · intro hp
    have hnneg : ¬ p < 0 := by omega
    have hb : (100 : ℚ) < (p : ℚ) := by exact_mod_cast hp
    have hpos : (0 : ℚ) < (p : ℚ) + 100 := by linarith
    rw [calculate_implied_probability, if_neg hnneg]
    constructor
    · positivity
    · rw [div_mul_eq_mul_div, div_lt_iff₀ hpos]
      nlinarith
  · intro hp
    subst hp
    norm_num [calculate_implied_probability]
  · intro hp
    subst hp
    norm_num [calculate_implied_probability]
  · intro hp
    rw [calculate_implied_probability, if_pos hp]
  · intro hp
    rw [calculate_implied_probability, if_neg (by omega : ¬ p < 0)]

/-- Witness for C5 at -101, 101, -100, 100, -110 and 150. -/
theorem C5_implied_probability_ranges_witness :
    (50 < calculate_implied_probability (-101)
        ∧ calculate_implied_probability (-101) < 100) ∧
    (0 < calculate_implied_probability 101
        ∧ calculate_implied_probability 101 < 50) ∧
    calculate_implied_probability (-100) = 50 ∧
    calculate_implied_probability 100 = 50 ∧
    calculate_implied_probability (-110)
      = (|(-110 : ℤ)| : ℚ) / ((|(-110 : ℤ)| : ℚ) + 100) * 100 ∧
    calculate_implied_probability 150
      = 100 / (((150 : ℤ) : ℚ) + 100) * 100 :=
  ⟨(C5_implied_probability_ranges (-101)).1 (by decide),
    (C5_implied_probability_ranges 101).2.1 (by decide),
    (C5_implied_probability_ranges (-100)).2.2.1 rfl,
    (C5_implied_probability_ranges 100).2.2.2.1 rfl,
    (C5_implied_probability_ranges (-110)).2.2.2.2.1 (by decide),
    (C5_implied_probability_ranges 150).2.2.2.2.2 (by decide)⟩

/-- C7: when the upstream fetch raises (network error, timeout, non-2xx via
`raise_for_status`) on a cache miss, `get_nfl_odds` returns the
`{'error': msg, 'games': []}` payload instead of raising, and the cache is
returned unchanged — no entry is stored under the failed query's key. -/
theorem C7_upstream_failure_no_cache_write (k fetchTime e : String)
    (markets? sportsbooks : Option (List String)) (cache : Cache)
    (cd now : Int)
    (hmiss : get_cached_data cache cd
        (cache_key_for (markets?.getD ["h2h", "spreads", "totals"])) now
      = none) :
    get_nfl_odds (some k) markets? sportsbooks cache cd now
        (Except.error e) fetchTime = (errorResult e, cache)
    ∧ (errorResult e).games = [] := by
  refine ⟨?_, rfl⟩
  simp only [get_nfl_odds, hmiss]

/-- Witness for C7 on an empty cache. -/
theorem C7_upstream_failure_no_cache_write_witness :
    get_nfl_odds (some "k") none none [] 300 0 (Except.error "timeout") "t"
        = (errorResult "timeout", [])
    ∧ (errorResult "timeout").games = [] :=
  C7_upstream_failure_no_cache_write "k" "t" "timeout" none none [] 300 0 rfl

/-- C8 counterexample: at p = -100 — an input the claim explicitly includes —
the untaken branch's denominator p + 100 is 0, not strictly positive, refuting
"both branch denominators are strictly positive" (the function itself still
evaluates fine there, to 50, through the p < 0 branch). -/
theorem C8_untaken_denominator_not_positive :
    calculate_implied_probability (-100) = 50 ∧ ¬((0 : ℤ) < -100 + 100) :=
  ⟨by norm_num [calculate_implied_probability], by decide⟩

/-- C8 amended: the conversion is total because the denominator of the branch
actually taken is nonzero for every integer input: for p < 0 the result is a
genuine division by |p| + 100 ≠ 0, and for p ≥ 0 by p + 100 ≠ 0 (the
cross-multiplied identities certify the division); p + 100 itself is only
positive on the branch that uses it. -/
theorem C8_taken_branch_denominator_positive (p : ℤ) :
    (p < 0 → ((|p| : ℚ) + 100 ≠ 0 ∧
        calculate_implied_probability p * ((|p| : ℚ) + 100)
          = (|p| : ℚ) * 100)) ∧
    (0 ≤ p → (((p : ℚ) + 100 ≠ 0) ∧
        calculate_implied_probability p * ((p : ℚ) + 100) = 100 * 100)) := by
  constructor
  · intro hp
    have habs : (0 : ℚ) ≤ (|p| : ℚ) := by positivity
    have hne : (|p| : ℚ) + 100 ≠ 0 := by linarith
    refine ⟨hne, ?_⟩
    rw [calculate_implied_probability, if_pos hp]
    field_simp
  · intro hp
    have hq : (0 : ℚ) ≤ (p : ℚ) := by exact_mod_cast hp
    have hne : (p : ℚ) + 100 ≠ 0 := by linarith
    refine ⟨hne, ?_⟩
    rw [calculate_implied_probability, if_neg (by omega : ¬ p < 0)]
    field_simp

/-- Witness for C8 at p = -100 and p = 0. -/
theorem C8_taken_branch_denominator_positive_witness :
    ((|(-100 : ℤ)| : ℚ) + 100 ≠ 0 ∧
      calculate_implied_probability (-100) * ((|(-100 : ℤ)| : ℚ) + 100)
        = (|(-100 : ℤ)| : ℚ) * 100) ∧
    ((((0 : ℤ) : ℚ)) + 100 ≠ 0 ∧
      calculate_implied_probability 0 * (((0 : ℤ) : ℚ) + 100) = 100 * 100) :=
  ⟨(C8_taken_branch_denominator_positive (-100)).1 (by decide),
    (C8_taken_branch_denominator_positive 0).2 (by decide)⟩

/-- C9 counterexample: `format_odds` removes EVERY '+' (Python
`str.replace` is global), not only a leading one: on "1+5" the claimed
leading-strip parse fails (so the claim demands the sentinel 0), yet the code
returns 15 ≠ 0. -/
theorem C9_plus_removal_not_only_leading :
    claimLeadingPlusParse "1+5" = none ∧
    format_odds (some "1+5") = 15 ∧ (15 : Int) ≠ 0 := by
  refine ⟨by decide, by decide, by decide⟩

/-- C9 amended: `format_odds` never fails (it is a total function): it removes
every '+' character and rewrites each occurrence of the three-character
mojibake minus sequence to '-', then parses with `int()` semantics — "+150"
gives 150, "-110" gives -110, "1+5" gives 15, the mojibake-minus form of 150
gives -150 — and every input whose normalized form does not parse, including
non-strings, collapses to the same sentinel 0 as a genuine zero. -/
theorem C9_format_odds_behavior :
    format_odds none = 0 ∧
    format_odds (some "+150") = 150 ∧
    format_odds (some "-110") = -110 ∧
    format_odds (some "1+5") = 15 ∧
    format_odds (some (String.mk (mojibakeMinus ++ "150".data))) = -150 ∧
    format_odds (some "abc") = 0 ∧
    format_odds (some "") = 0 ∧
    (∀ (s : String) (n : Int),
        pyIntOfString (normalizeOddsChars s) = some n →
        format_odds (some s) = n) ∧
    (∀ s : String, pyIntOfString (normalizeOddsChars s) = none →
        format_odds (some s) = 0) := by
  refine ⟨by decide, by decide, by decide, by decide, by decide, by decide,
    by decide, ?_, ?_⟩
  · intro s n h
    simp [format_odds, h]
  · intro s h
    simp [format_odds, h]

/-- Witness for C9 on "77" (parses) and "x" (fails). -/
theorem C9_format_odds_behavior_witness :
    format_odds (some "77") = 77 ∧ format_odds (some "x") = 0 :=
  ⟨C9_format_odds_behavior.2.2.2.2.2.2.2.1 "77" 77 (by decide),
    C9_format_odds_behavior.2.2.2.2.2.2.2.2 "x" (by decide)⟩

end AvantusAnalytics
